import Mathlib

/-!
Verification of the docker-pull progress renderer (`main.go`).

The Go program decodes a stream of loosely-typed JSON records, folds them into a
per-layer state table (`layers` map plus insertion-ordered `order` slice),
aggregates the table into one overall fraction with a sub-1.0 clamp and a
monotonic clamp against `lastPct`, and renders a fixed-width ASCII bar.

The embedding below mirrors the source:
* Go `int64` is modelled as `Int`, Go `float64` arithmetic on fractions as `ℚ`
  (exact rational arithmetic in place of IEEE doubles),
* the `layers` map is modelled as an association list keyed by `String`
  together with the `order` slice, matching the program's own invariant that
  `order` lists exactly the keys of `layers`,
* `map[string]any` records are modelled by `RawValue` trees,
* the body of the pump loop in `main` (after the decode and error checks)
  is `runStep`; a whole run is `runTrace` / `runState`.
-/

namespace Progress

/-! ## String helpers (Go `strings.ToLower`, `strings.Contains`) -/

/-- Go `strings.ToLower` restricted to the ASCII statuses the program handles. -/
def lowerList (s : List Char) : List Char := s.map Char.toLower

/-- Is the first list an initial segment of the second list? -/
def leadsList : List Char → List Char → Bool
  | [], _ => true
  | _ :: _, [] => false
  | a :: as, b :: bs => a == b && leadsList as bs

/-- Go `strings.Contains s pat` on char lists. -/
def containsSub (s pat : List Char) : Bool := s.tails.any fun t => leadsList pat t

/-- Does `strings.ToLower s` contain the (already lower-case) pattern `pat`? -/
def lowerContains (s pat : String) : Bool := containsSub (lowerList s.toList) pat.toList

/-! ## Data model (`layerState`, decoded events) -/

/-- Go `layerState` (main.go lines 18-23). -/
structure LayerState where
  current : Int
  total : Int
  status : String
  done : Bool
deriving DecidableEq, Repr

/-- The Go zero value a map read `layers[id]` yields for an absent key. -/
def LayerState.zero : LayerState := ⟨0, 0, "", false⟩

/-- One decoded progress record (fields extracted in main.go lines 239-255). -/
structure ProgressEvent where
  id : String
  status : String
  current : Int
  total : Int
deriving DecidableEq, Repr

/-! ## Record decoder (main.go lines 221-255) -/

/-- A value of Go's `any` as produced by `encoding/json` into `map[string]any`. -/
inductive RawValue where
  | str (s : String)
  | num (q : ℚ)
  | boolean (b : Bool)
  | null
  | obj (fields : List (String × RawValue))
  | arr (elems : List RawValue)

/-- First-match association-list lookup (Go map read, keys kept duplicate-free). -/
def alookup {β : Type} : List (String × β) → String → Option β
  | [], _ => none
  | (k, v) :: rest, key => if k = key then some v else alookup rest key

/-- Go `int64(f)` on a `float64`: truncation toward zero. -/
def truncToInt (q : ℚ) : ℤ := if q < 0 then -⌊-q⌋ else ⌊q⌋

/-- Field extraction of main.go lines 239-255: every lookup is best-effort,
missing or wrong-typed fields default to the zero value. -/
def decodeEvent (rec : List (String × RawValue)) : ProgressEvent :=
  let id := match alookup rec "id" with
    | some (RawValue.str s) => s
    | _ => ""
  let status := match alookup rec "status" with
    | some (RawValue.str s) => s
    | _ => ""
  let ct : Int × Int := match alookup rec "progressDetail" with
    | some (RawValue.obj pd) =>
      (match alookup pd "current" with
        | some (RawValue.num q) => truncToInt q
        | _ => 0,
       match alookup pd "total" with
        | some (RawValue.num q) => truncToInt q
        | _ => 0)
    | _ => (0, 0)
  ⟨id, status, ct.1, ct.2⟩

/-- The in-band error check of main.go lines 234-237: a record whose `error`
field is a non-empty string aborts the run with `Error: <msg>` and exit code 1;
otherwise the record is decoded into a progress event. -/
def recordOutcome (rec : List (String × RawValue)) : Except (String × Nat) ProgressEvent :=
  match alookup rec "error" with
  | some (RawValue.str s) =>
      if s = "" then Except.ok (decodeEvent rec) else Except.error ("Error: " ++ s, 1)
  | _ => Except.ok (decodeEvent rec)

/-! ## Layer tracker (main.go lines 278-298) -/

/-- The three terminal-success labels of the `switch` in main.go line 292. -/
def isTerminalStatus (s : String) : Bool :=
  s == "Download complete" || s == "Pull complete" || s == "Already exists"

/-- The per-layer update of main.go lines 282-297, applied to the looked-up
(or zero) layer state. -/
def updateLayer (ls0 : LayerState) (e : ProgressEvent) : LayerState :=
  let ls1 := if 0 < e.total then { ls0 with total := e.total } else ls0
  let ls2 := if 0 < e.current ∨ e.total = 0 then { ls1 with current := e.current } else ls1
  let ls3 := if e.status ≠ "" then { ls2 with status := e.status } else ls2
  if isTerminalStatus e.status then
    let ls4 := { ls3 with done := true }
    if 0 < ls4.total ∧ ls4.current < ls4.total then { ls4 with current := ls4.total } else ls4
  else ls3

/-- Go map write `layers[id] = v` on the association list: replace the first
binding of `id`, or append a new binding. -/
def mapSet : List (String × LayerState) → String → LayerState → List (String × LayerState)
  | [], key, v => [(key, v)]
  | (k, w) :: rest, key, v =>
      if k = key then (k, v) :: rest else (k, w) :: mapSet rest key v

/-- Observing one event with non-empty id (main.go lines 278-298): read the
current layer state (zero value when absent), append the id to `order` when it
is new, then store the updated state. -/
def observe (layers : List (String × LayerState)) (order : List String) (e : ProgressEvent) :
    List (String × LayerState) × List String :=
  let ls := (alookup layers e.id).getD LayerState.zero
  let order' := if (alookup layers e.id).isSome then order else order ++ [e.id]
  (mapSet layers e.id (updateLayer ls e), order')

/-! ## Aggregator (main.go `render` lines 67-97 and the `allDone` check 300-316) -/

/-- The two labels that count toward overall completion (lines 73 and 304). -/
def inDonePair (s : String) : Bool := s == "Pull complete" || s == "Already exists"

/-- The completion check of main.go lines 300-316: non-empty layer table and
every layer's status one of the two terminal-success labels. -/
def allDoneMain (layers : List (String × LayerState)) : Bool :=
  !layers.isEmpty && layers.all fun p => inDonePair p.2.status

/-- One iteration of the aggregation loop in `render` (lines 71-81):
accumulator is `(sumCurrent, sumTotal, allDone)`. -/
def stepAgg (acc : Int × Int × Bool) (ls : LayerState) : Int × Int × Bool :=
  let ad := acc.2.2 && inDonePair ls.status
  if 0 < ls.total then (acc.1 + ls.current, acc.2.1 + ls.total, ad)
  else (acc.1, acc.2.1, ad)

/-- The aggregation loop of `render`: iterate `order`, skipping ids absent from
the map. -/
def aggOrderFold : List String → List (String × LayerState) → Int × Int × Bool → Int × Int × Bool
  | [], _, acc => acc
  | id :: rest, layers, acc =>
      match alookup layers id with
      | some ls => aggOrderFold rest layers (stepAgg acc ls)
      | none => aggOrderFold rest layers acc

/-- `(sumCurrent, sumTotal, allDone)` as computed by `render` (lines 69-81). -/
def renderAgg (order : List String) (layers : List (String × LayerState)) : Int × Int × Bool :=
  aggOrderFold order layers (0, 0, true)

/-- `pct` before any clamp (lines 82-85): `sumCurrent/sumTotal`, or 0 when
`sumTotal` is not positive. -/
def rawPct (order : List String) (layers : List (String × LayerState)) : ℚ :=
  let a := renderAgg order layers
  if 0 < a.2.1 then (a.1 : ℚ) / (a.2.1 : ℚ) else 0

/-- The sub-1.0 clamp (lines 86-89): while not all layers are done, a fraction
of at least 0.999 is forced down to 0.99. -/
def clampedPct (order : List String) (layers : List (String × LayerState)) : ℚ :=
  let a := renderAgg order layers
  let pct := rawPct order layers
  if !a.2.2 && 999/1000 ≤ pct then 99/100 else pct

/-- The monotonic clamp (lines 90-97): the rendered fraction is the maximum of
the clamped fraction and `lastPct`, and `lastPct` is updated to that value. -/
def renderPct (order : List String) (layers : List (String × LayerState)) (lastPct : ℚ) : ℚ :=
  max (clampedPct order layers) lastPct

/-! ## ASCII bar and line rendering (main.go lines 39-61 and 98-100) -/

/-- `asciiBar` (main.go lines 39-61), with the bar built exactly as the Go loop
does: start from `width` blanks, fill `'='` below the head, place `'>'` at the
head. -/
def asciiBar (pct : ℚ) (width : Nat) : List Char :=
  let p1 := if pct < 0 then 0 else pct
  let p2 := if 1 < p1 then 1 else p1
  let f1 := (truncToInt (p2 * (width : ℚ))).toNat
  let filled := if width < f1 then width else f1
  let bar := List.replicate width ' '
  if 0 < filled then
    ((List.range (filled - 1)).foldl (fun b i => b.set i '=') bar).set (filled - 1) '>'
  else bar

/-- Go `%.0f`: round to the nearest integer, ties to the even integer. -/
def roundHalfEven (q : ℚ) : ℤ :=
  let f := ⌊q⌋
  let r := q - (f : ℚ)
  if r < 1/2 then f
  else if 1/2 < r then f + 1
  else if f % 2 = 0 then f else f + 1

/-- Right-justify in a field of `n` characters (Go width flag). -/
def padLeft (s : String) (n : Nat) : String :=
  String.mk (List.replicate (n - s.length) ' ') ++ s

/-- Go `%3.0f` on the exact rational value (including the `-0` a negative value
rounding to zero prints). -/
def fmtF3 (q : ℚ) : String :=
  let n := roundHalfEven q
  let s := if n = 0 ∧ q < 0 then "-0" else toString n
  padLeft s 3

/-- The progress line text of main.go line 98. -/
def renderLine (imageRef : String) (pct : ℚ) : String :=
  "Pulling " ++ imageRef ++ "...[" ++ String.mk (asciiBar pct 40) ++ "] " ++
    fmtF3 (pct * 100) ++ "%"

/-- The finalize output of main.go lines 198-207. -/
def finalizeLine (imageRef : String) (cancelled : Bool) : String :=
  if cancelled then "\r\x1b[2KPulling " ++ imageRef ++ "...CANCELLED\r\n"
  else "\r\x1b[2KPulling " ++ imageRef ++ "...DONE\r\n"

/-! ## The pump loop (main.go lines 214-320) -/

/-- The mutable state of one run: the layer table, the insertion order, and the
last rendered fraction. -/
structure LoopState where
  layers : List (String × LayerState)
  order : List String
  lastPct : ℚ

/-- State at the start of a run (lines 187-189). -/
def initState : LoopState := ⟨[], [], 0⟩

/-- The global terminal phrases of main.go line 265. -/
def isTerminalHeader (status : String) : Bool :=
  lowerContains status "digest:" || lowerContains status "downloaded newer image" ||
    lowerContains status "image is up to date"

/-- One iteration of the pump loop on an already-decoded event (main.go lines
256-320): returns the next state, the fractions rendered during the iteration,
and whether the loop exits. The forced-complete path (lines 264-272) sets
`lastPct` to 1 before rendering. -/
def runStep (s : LoopState) (e : ProgressEvent) : LoopState × List ℚ × Bool :=
  if lowerContains e.status "pulling from" then (s, [], false)
  else if e.id = "" then
    if isTerminalHeader e.status then
      let r := renderPct s.order s.layers 1
      ({ s with lastPct := r }, [r], true)
    else
      let r := renderPct s.order s.layers s.lastPct
      ({ s with lastPct := r }, [r], false)
  else
    let lo := observe s.layers s.order e
    if allDoneMain lo.1 then
      let r := renderPct lo.2 lo.1 s.lastPct
      (⟨lo.1, lo.2, r⟩, [r], true)
    else
      let r := renderPct lo.2 lo.1 s.lastPct
      (⟨lo.1, lo.2, r⟩, [r], false)

/-- All fractions rendered while pumping a list of decoded events; the loop
stops at the first exiting event. -/
def runTrace : LoopState → List ProgressEvent → List ℚ
  | _, [] => []
  | s, e :: es =>
      let out := runStep s e
      out.2.1 ++ if out.2.2 then [] else runTrace out.1 es

/-- The state after pumping a list of decoded events. -/
def runState : LoopState → List ProgressEvent → LoopState
  | s, [] => s
  | s, e :: es =>
      let out := runStep s e
      if out.2.2 then out.1 else runState out.1 es

/-- The layer table and the insertion order agree: `order` is exactly the key
sequence of the table and has no duplicates. -/
def Consistent (layers : List (String × LayerState)) (order : List String) : Prop :=
  layers.map Prod.fst = order ∧ order.Nodup

/-- Invariant of every state the loop re-enters: table and order agree, the
layer set is empty or not yet all-done (otherwise the loop would have exited),
and the last rendered fraction is below 1. -/
def LoopInv (s : LoopState) : Prop :=
  Consistent s.layers s.order ∧ (s.layers = [] ∨ allDoneMain s.layers = false) ∧ s.lastPct < 1

/-! ## Association-list lemmas -/

theorem alookup_mapSet_self (l : List (String × LayerState)) (key : String) (v : LayerState) :
    alookup (mapSet l key v) key = some v := by
  induction l with
  | nil => simp [mapSet, alookup]
  | cons p rest ih =>
      obtain ⟨k, w⟩ := p
      by_cases h : k = key
      · simp [mapSet, h, alookup]
      · simp [mapSet, h, alookup, ih]

theorem mapSet_map_fst_of_mem {l : List (String × LayerState)} {key : String}
    (v : LayerState) (h : key ∈ l.map Prod.fst) :
    (mapSet l key v).map Prod.fst = l.map Prod.fst := by
  induction l with
  | nil => simp at h
  | cons p rest ih =>
      obtain ⟨k, w⟩ := p
      by_cases hk : k = key
      · simp [mapSet, hk]
      · rw [List.map_cons, List.mem_cons] at h
        rcases h with h | h
        · exact absurd h.symm hk
        · simp [mapSet, hk, ih h]

theorem mapSet_map_fst_of_not_mem {l : List (String × LayerState)} {key : String}
    (v : LayerState) (h : key ∉ l.map Prod.fst) :
    (mapSet l key v).map Prod.fst = l.map Prod.fst ++ [key] := by
  induction l with
  | nil => simp [mapSet]
  | cons p rest ih =>
      obtain ⟨k, w⟩ := p
      have hk : k ≠ key := by rintro rfl; exact h (by simp)
      have h' : key ∉ rest.map Prod.fst := fun hm => h (by simp [hm])
      simp [mapSet, hk, ih h']

theorem alookup_isSome_iff {β : Type} (l : List (String × β)) (key : String) :
    (alookup l key).isSome = true ↔ key ∈ l.map Prod.fst := by
  induction l with
  | nil => simp [alookup]
  | cons p rest ih =>
      obtain ⟨k, w⟩ := p
      by_cases hk : k = key
      · simp [alookup, hk]
      · simp [alookup, hk, ih, Ne.symm hk]

theorem observe_consistent {layers : List (String × LayerState)} {order : List String}
    (e : ProgressEvent) (h : Consistent layers order) :
    Consistent (observe layers order e).1 (observe layers order e).2 := by
  obtain ⟨hkeys, hnd⟩ := h
  by_cases hs : (alookup layers e.id).isSome = true
  · have hmem : e.id ∈ layers.map Prod.fst := (alookup_isSome_iff _ _).mp hs
    refine ⟨?_, ?_⟩
    · simp only [observe, hs, if_true]
      rw [mapSet_map_fst_of_mem _ hmem, hkeys]
    · simpa [observe, hs] using hnd
  · have hmem : e.id ∉ layers.map Prod.fst := fun hm =>
      hs ((alookup_isSome_iff _ _).mpr hm)
    have hmem' : e.id ∉ order := hkeys ▸ hmem
    have hs' : ((alookup layers e.id).isSome = true) = False := by
      simp [hs]
    refine ⟨?_, ?_⟩
    · simp only [observe, hs', if_false]
      rw [mapSet_map_fst_of_not_mem _ hmem, hkeys]
    · simp only [observe, hs', if_false]
      rw [List.nodup_append]
      exact ⟨hnd, List.nodup_singleton _, by simpa using hmem'⟩

theorem observe_order_extend (layers : List (String × LayerState)) (order : List String)
    (e : ProgressEvent) : ∃ t, (observe layers order e).2 = order ++ t := by
  by_cases hs : (alookup layers e.id).isSome = true
  · exact ⟨[], by simp [observe, hs]⟩
  · exact ⟨[e.id], by simp [observe, hs]⟩

/-! ## Aggregation lemmas -/

theorem stepAgg_allDone (acc : Int × Int × Bool) (ls : LayerState) :
    (stepAgg acc ls).2.2 = (acc.2.2 && inDonePair ls.status) := by
  unfold stepAgg
  split <;> rfl

theorem aggOrderFold_nil_layers (order : List String) (acc : Int × Int × Bool) :
    aggOrderFold order [] acc = acc := by
  induction order with
  | nil => rfl
  | cons id rest ih => simp [aggOrderFold, alookup, ih]

theorem aggOrderFold_cons_not_mem (ks : List String) (k : String) (v : LayerState)
    (tl : List (String × LayerState)) (acc : Int × Int × Bool) (hk : k ∉ ks) :
    aggOrderFold ks ((k, v) :: tl) acc = aggOrderFold ks tl acc := by
  induction ks generalizing acc with
  | nil => rfl
  | cons id rest ih =>
      have h1 : k ≠ id := fun h => hk (by simp [h])
      have h2 : k ∉ rest := fun h => hk (by simp [h])
      rcases hl : alookup tl id with _ | ls <;>
        simp [aggOrderFold, alookup, h1, hl, ih _ h2]

theorem aggOrderFold_keys (layers : List (String × LayerState)) (acc : Int × Int × Bool)
    (hnd : (layers.map Prod.fst).Nodup) :
    aggOrderFold (layers.map Prod.fst) layers acc =
      layers.foldl (fun a p => stepAgg a p.2) acc := by
  induction layers generalizing acc with
  | nil => rfl
  | cons p tl ih =>
      obtain ⟨k, v⟩ := p
      rw [List.map_cons, List.nodup_cons] at hnd
      have step1 : aggOrderFold (k :: tl.map Prod.fst) ((k, v) :: tl) acc =
          aggOrderFold (tl.map Prod.fst) ((k, v) :: tl) (stepAgg acc v) := by
        simp [aggOrderFold, alookup]
      rw [List.map_cons, step1, aggOrderFold_cons_not_mem _ _ _ _ _ hnd.1, ih _ hnd.2]
      rfl

theorem foldl_stepAgg_allDone (layers : List (String × LayerState)) (acc : Int × Int × Bool) :
    (layers.foldl (fun a p => stepAgg a p.2) acc).2.2 =
      (acc.2.2 && layers.all fun p => inDonePair p.2.status) := by
  induction layers generalizing acc with
  | nil => simp
  | cons p tl ih =>
      rw [List.foldl_cons, ih, stepAgg_allDone, List.all_cons, Bool.and_assoc]

theorem renderAgg_allDone_eq {layers : List (String × LayerState)} {order : List String}
    (h : Consistent layers order) :
    (renderAgg order layers).2.2 = layers.all fun p => inDonePair p.2.status := by
  obtain ⟨hkeys, hnd⟩ := h
  rw [renderAgg, ← hkeys, aggOrderFold_keys layers _ (hkeys ▸ hnd), foldl_stepAgg_allDone]
  rfl

theorem clampedPct_lt_one {layers : List (String × LayerState)} {order : List String}
    (h : Consistent layers order) (hd : layers = [] ∨ allDoneMain layers = false) :
    clampedPct order layers < 1 := by
  rcases eq_or_ne layers [] with rfl | hne
  · have hagg : renderAgg order [] = (0, 0, true) := by
      rw [renderAgg, aggOrderFold_nil_layers]
    have hraw : rawPct order [] = 0 := by simp [rawPct, hagg]
    rw [clampedPct]
    simp only [hagg, hraw]
    norm_num
  · have had : allDoneMain layers = false := by
      rcases hd with rfl | had
      · exact absurd rfl hne
      · exact had
    have hflag : (renderAgg order layers).2.2 = false := by
      rw [renderAgg_allDone_eq h]
      rw [allDoneMain] at had
      have hie : layers.isEmpty = false := by
        simpa [List.isEmpty_iff] using hne
      simpa [hie] using had
    by_cases hc : (999 : ℚ)/1000 ≤ rawPct order layers
    · rw [clampedPct]
      simp only [hflag, Bool.not_false, Bool.true_and, hc, if_pos]
      norm_num
    · rw [clampedPct]
      simp only [hflag, Bool.not_false, Bool.true_and, hc, if_neg]
      push_neg at hc
      calc rawPct order layers < 999/1000 := hc
        _ < 1 := by norm_num

theorem renderPct_lt_one {layers : List (String × LayerState)} {order : List String}
    {lastPct : ℚ} (h1 : clampedPct order layers < 1) (h2 : lastPct < 1) :
    renderPct order layers lastPct < 1 := max_lt h1 h2

theorem renderPct_forced_eq_one {layers : List (String × LayerState)} {order : List String}
    (h : clampedPct order layers ≤ 1) : renderPct order layers 1 = 1 := max_eq_right h

/-! ## Pump-loop step lemmas -/

theorem runStep_filter {s : LoopState} {e : ProgressEvent}
    (h : lowerContains e.status "pulling from" = true) :
    runStep s e = (s, [], false) := by
  simp [runStep, h]

theorem runStep_forced {s : LoopState} {e : ProgressEvent}
    (h1 : lowerContains e.status "pulling from" = false) (h2 : e.id = "")
    (h3 : isTerminalHeader e.status = true) :
    runStep s e = ({ s with lastPct := renderPct s.order s.layers 1 },
      [renderPct s.order s.layers 1], true) := by
  simp [runStep, h1, h2, h3]

theorem runStep_header {s : LoopState} {e : ProgressEvent}
    (h1 : lowerContains e.status "pulling from" = false) (h2 : e.id = "")
    (h3 : isTerminalHeader e.status = false) :
    runStep s e = ({ s with lastPct := renderPct s.order s.layers s.lastPct },
      [renderPct s.order s.layers s.lastPct], false) := by
  simp [runStep, h1, h2, h3]

theorem runStep_done {s : LoopState} {e : ProgressEvent}
    (h1 : lowerContains e.status "pulling from" = false) (h2 : e.id ≠ "")
    (h3 : allDoneMain (observe s.layers s.order e).1 = true) :
    runStep s e = (⟨(observe s.layers s.order e).1, (observe s.layers s.order e).2,
        renderPct (observe s.layers s.order e).2 (observe s.layers s.order e).1 s.lastPct⟩,
      [renderPct (observe s.layers s.order e).2 (observe s.layers s.order e).1 s.lastPct],
      true) := by
  simp [runStep, h1, h2, h3]

theorem runStep_observe {s : LoopState} {e : ProgressEvent}
    (h1 : lowerContains e.status "pulling from" = false) (h2 : e.id ≠ "")
    (h3 : allDoneMain (observe s.layers s.order e).1 = false) :
    runStep s e = (⟨(observe s.layers s.order e).1, (observe s.layers s.order e).2,
        renderPct (observe s.layers s.order e).2 (observe s.layers s.order e).1 s.lastPct⟩,
      [renderPct (observe s.layers s.order e).2 (observe s.layers s.order e).1 s.lastPct],
      false) := by
  simp [runStep, h1, h2, h3]

theorem runTrace_cons (s : LoopState) (e : ProgressEvent) (es : List ProgressEvent) :
    runTrace s (e :: es) =
      (runStep s e).2.1 ++ if (runStep s e).2.2 then [] else runTrace (runStep s e).1 es := rfl

theorem runState_cons (s : LoopState) (e : ProgressEvent) (es : List ProgressEvent) :
    runState s (e :: es) =
      if (runStep s e).2.2 then (runStep s e).1 else runState (runStep s e).1 es := rfl

/-- Every continue-step preserves the loop invariant, every render is at least
the incoming `lastPct`, and the rendered value is the new `lastPct`. -/
theorem runTrace_chain (es : List ProgressEvent) (s : LoopState) (hinv : LoopInv s) :
    List.Chain (· ≤ ·) s.lastPct (runTrace s es) := by
  induction es generalizing s with
  | nil => exact List.Chain.nil
  | cons e es ih =>
      obtain ⟨hcons, hlay, hlt⟩ := hinv
      by_cases h1 : lowerContains e.status "pulling from" = true
      · rw [runTrace_cons, runStep_filter h1]
        simpa using ih s ⟨hcons, hlay, hlt⟩
      · rw [Bool.not_eq_true] at h1
        by_cases h2 : e.id = ""
        · by_cases h3 : isTerminalHeader e.status = true
          · rw [runTrace_cons, runStep_forced h1 h2 h3]
            refine List.Chain.cons ?_ List.Chain.nil
            exact le_trans (le_of_lt hlt) (le_max_right _ _)
          · rw [Bool.not_eq_true] at h3
            rw [runTrace_cons, runStep_header h1 h2 h3]
            simp only [if_false, Bool.false_eq_true, List.singleton_append]
            refine List.Chain.cons (le_max_right _ _) ?_
            have hlt' : renderPct s.order s.layers s.lastPct < 1 :=
              renderPct_lt_one (clampedPct_lt_one hcons hlay) hlt
            exact ih { s with lastPct := renderPct s.order s.layers s.lastPct }
              ⟨hcons, hlay, hlt'⟩
        · by_cases h3 : allDoneMain (observe s.layers s.order e).1 = true
          · rw [runTrace_cons, runStep_done h1 h2 h3]
            exact List.Chain.cons (le_max_right _ _) List.Chain.nil
          · rw [Bool.not_eq_true] at h3
            rw [runTrace_cons, runStep_observe h1 h2 h3]
            simp only [if_false, Bool.false_eq_true, List.singleton_append]
            refine List.Chain.cons (le_max_right _ _) ?_
            have hcons' : Consistent (observe s.layers s.order e).1
                (observe s.layers s.order e).2 := observe_consistent e hcons
            have hlt' : renderPct (observe s.layers s.order e).2
                (observe s.layers s.order e).1 s.lastPct < 1 :=
              renderPct_lt_one (clampedPct_lt_one hcons' (Or.inr h3)) hlt
            exact ih ⟨(observe s.layers s.order e).1, (observe s.layers s.order e).2,
              renderPct (observe s.layers s.order e).2 (observe s.layers s.order e).1
                s.lastPct⟩ ⟨hcons', Or.inr h3, hlt'⟩

theorem runStep_consistent (s : LoopState) (e : ProgressEvent)
    (h : Consistent s.layers s.order) :
    Consistent (runStep s e).1.layers (runStep s e).1.order := by
  by_cases h1 : lowerContains e.status "pulling from" = true
  · rw [runStep_filter h1]; exact h
  · rw [Bool.not_eq_true] at h1
    by_cases h2 : e.id = ""
    · by_cases h3 : isTerminalHeader e.status = true
      · rw [runStep_forced h1 h2 h3]; exact h
      · rw [Bool.not_eq_true] at h3
        rw [runStep_header h1 h2 h3]; exact h
    · by_cases h3 : allDoneMain (observe s.layers s.order e).1 = true
      · rw [runStep_done h1 h2 h3]; exact observe_consistent e h
      · rw [Bool.not_eq_true] at h3
        rw [runStep_observe h1 h2 h3]; exact observe_consistent e h

theorem runStep_order_extend (s : LoopState) (e : ProgressEvent) :
    ∃ t, (runStep s e).1.order = s.order ++ t := by
  by_cases h1 : lowerContains e.status "pulling from" = true
  · rw [runStep_filter h1]; exact ⟨[], by simp⟩
  · rw [Bool.not_eq_true] at h1
    by_cases h2 : e.id = ""
    · by_cases h3 : isTerminalHeader e.status = true
      · rw [runStep_forced h1 h2 h3]; exact ⟨[], by simp⟩
      · rw [Bool.not_eq_true] at h3
        rw [runStep_header h1 h2 h3]; exact ⟨[], by simp⟩
    · by_cases h3 : allDoneMain (observe s.layers s.order e).1 = true
      · rw [runStep_done h1 h2 h3]; exact observe_order_extend s.layers s.order e
      · rw [Bool.not_eq_true] at h3
        rw [runStep_observe h1 h2 h3]; exact observe_order_extend s.layers s.order e

theorem runState_consistent (es : List ProgressEvent) (s : LoopState)
    (h : Consistent s.layers s.order) :
    Consistent (runState s es).layers (runState s es).order := by
  induction es generalizing s with
  | nil => exact h
  | cons e es ih =>
      rw [runState_cons]
      by_cases hex : (runStep s e).2.2 = true
      · simp only [hex, if_true]
        exact runStep_consistent s e h
      · rw [Bool.not_eq_true] at hex
        simp only [hex, Bool.false_eq_true, if_false]
        exact ih (runStep s e).1 (runStep_consistent s e h)

theorem runState_order_extend (es : List ProgressEvent) (s : LoopState) :
    ∃ t, (runState s es).order = s.order ++ t := by
  induction es generalizing s with
  | nil => exact ⟨[], by simp [runState]⟩
  | cons e es ih =>
      rw [runState_cons]
      obtain ⟨t1, ht1⟩ := runStep_order_extend s e
      by_cases hex : (runStep s e).2.2 = true
      · simp only [hex, if_true]
        exact ⟨t1, ht1⟩
      · rw [Bool.not_eq_true] at hex
        simp only [hex, Bool.false_eq_true, if_false]
        obtain ⟨t2, ht2⟩ := ih (runStep s e).1
        exact ⟨t1 ++ t2, by rw [ht2, ht1, List.append_assoc]⟩

theorem runState_append_order (es more : List ProgressEvent) (s : LoopState) :
    ∃ t, (runState s (es ++ more)).order = (runState s es).order ++ t := by
  induction es generalizing s with
  | nil =>
      simpa using runState_order_extend more s
  | cons e es ih =>
      rw [List.cons_append, runState_cons, runState_cons]
      by_cases hex : (runStep s e).2.2 = true
      · simp only [hex, if_true]
        exact ⟨[], by simp⟩
      · rw [Bool.not_eq_true] at hex
        simp only [hex, Bool.false_eq_true, if_false]
        exact ih (runStep s e).1

/-- Claim C1: for every sequence of decoded events processed in one run, the
fractions rendered by successive calls to `render` are non-decreasing: every
render outputs the maximum of the computed fraction and the last rendered
fraction (`renderPct`), which becomes the new last rendered fraction, so no
render of a run shows a smaller percentage than any earlier render. -/
theorem c1_rendered_fractions_monotone (events : List ProgressEvent) :
    List.Pairwise (· ≤ ·) (runTrace initState events) := by
  have h0 : LoopInv initState := ⟨⟨rfl, List.nodup_nil⟩, Or.inl rfl, by norm_num [initState]⟩
  have h : List.Chain' (· ≤ ·) ((0 : ℚ) :: runTrace initState events) :=
    runTrace_chain events initState h0
  exact List.chain'_iff_pairwise.mp h.tail

/-- Claim C10: after any processed run the insertion-order sequence and the
layer table stay consistent — the ids in `order` are exactly the key sequence
of the `layers` table and contain no duplicates — and `order` is append-only:
processing further events only ever appends to it, so an id already present
keeps its position. -/
theorem c10_order_table_consistency (events more : List ProgressEvent) :
    Consistent (runState initState events).layers (runState initState events).order ∧
    ∃ t, (runState initState (events ++ more)).order =
      (runState initState events).order ++ t := by
  constructor
  · exact runState_consistent events initState ⟨rfl, List.nodup_nil⟩
  · exact runState_append_order events more initState

/-- Claim C2: the aggregate `allDone` flag that decides completion is true iff
the tracked layer set is non-empty and every tracked layer's status equals
"Pull complete" or "Already exists"; in particular a layer whose last status is
"Download complete" keeps `allDone` false even though that status marks the
layer done (sets its `done` flag) for snapping purposes. -/
theorem c2_allDone_characterisation (layers : List (String × LayerState)) :
    (allDoneMain layers = true ↔
      layers ≠ [] ∧ ∀ p ∈ layers,
        p.2.status = "Pull complete" ∨ p.2.status = "Already exists") ∧
    (∀ p ∈ layers, p.2.status = "Download complete" → allDoneMain layers = false) ∧
    (∀ (ls : LayerState) (e : ProgressEvent), e.status = "Download complete" →
      (updateLayer ls e).done = true) := by
  refine ⟨?_, ?_, ?_⟩
  · rw [allDoneMain, Bool.and_eq_true]
    constructor
    · rintro ⟨hne, hall⟩
      rw [Bool.not_eq_true'] at hne
      refine ⟨?_, ?_⟩
      · rintro rfl
        exact absurd hne (by decide)
      · intro p hp
        have := List.all_eq_true.mp hall p hp
        simpa [inDonePair] using this
    · rintro ⟨hne, hall⟩
      refine ⟨?_, ?_⟩
      · rw [Bool.not_eq_true']
        cases layers with
        | nil => exact absurd rfl hne
        | cons a l => rfl
      · rw [List.all_eq_true]
        intro p hp
        simpa [inDonePair] using hall p hp
  · intro p hp hst
    rw [allDoneMain]
    have : layers.all (fun p => inDonePair p.2.status) = false := by
      rw [List.all_eq_false]
      exact ⟨p, hp, by simp [inDonePair, hst]⟩
    simp [this]
  · intro ls e hst
    have hterm : isTerminalStatus e.status = true := by
      rw [hst]; rfl
    simp only [updateLayer, hterm, if_true]
    split_ifs <;> rfl

/-- Claim C4: observing an event with non-empty id stores exactly the layer
state obtained by `updateLayer` from the previously stored (or zero) state;
`updateLayer` overwrites `total` only when the incoming total is positive,
overwrites `current` exactly when the incoming current is positive or the
incoming total is zero, overwrites `status` only when non-empty, and on a
terminal status sets `done` and snaps `current` up to `total` when
`total` is known and `current` falls short — in particular a fresh layer
receiving "Pull complete" with total 100 and current 40 ends at current 100. -/
theorem c4_observe_updates_layer (layers : List (String × LayerState))
    (order : List String) (e : ProgressEvent) (hid : e.id ≠ "") :
    alookup (observe layers order e).1 e.id =
      some (updateLayer ((alookup layers e.id).getD LayerState.zero) e) ∧
    (∀ ls : LayerState,
      (updateLayer ls e).total = (if 0 < e.total then e.total else ls.total) ∧
      (updateLayer ls e).status = (if e.status = "" then ls.status else e.status) ∧
      (isTerminalStatus e.status = false →
        (updateLayer ls e).current =
          (if 0 < e.current ∨ e.total = 0 then e.current else ls.current) ∧
        (updateLayer ls e).done = ls.done) ∧
      (isTerminalStatus e.status = true →
        (updateLayer ls e).done = true ∧
        (updateLayer ls e).current =
          (let base := if 0 < e.current ∨ e.total = 0 then e.current else ls.current
           let tot := if 0 < e.total then e.total else ls.total
           if 0 < tot ∧ base < tot then tot else base))) ∧
    updateLayer LayerState.zero ⟨"x", "Pull complete", 40, 100⟩ =
      ⟨100, 100, "Pull complete", true⟩ := by
  refine ⟨?_, ?_, by decide⟩
  · rw [observe]
    exact alookup_mapSet_self layers e.id (updateLayer _ e)
  · intro ls
    by_cases hterm : isTerminalStatus e.status = true
    · have hne : e.status ≠ "" := by
        rintro h
        rw [h] at hterm
        exact absurd hterm (by decide)
      refine ⟨?_, ?_, ?_, ?_⟩
      · simp only [updateLayer, hterm, if_true]
        split_ifs <;> simp_all
      · simp only [updateLayer, hterm, if_true, hne]
        split_ifs <;> simp_all
      · intro hcontra
        rw [hterm] at hcontra
        exact absurd hcontra (by decide)
      · intro _
        constructor
        · simp only [updateLayer, hterm, if_true]
          split_ifs <;> rfl
        · simp only [updateLayer, hterm, if_true, hne]
          split_ifs <;> simp_all
    · rw [Bool.not_eq_true] at hterm
      refine ⟨?_, ?_, ?_, ?_⟩
      · simp only [updateLayer, hterm, Bool.false_eq_true, if_false]
        split_ifs <;> simp_all
      · simp only [updateLayer, hterm, Bool.false_eq_true, if_false]
        split_ifs <;> simp_all
      · intro _
        constructor
        · simp only [updateLayer, hterm, Bool.false_eq_true, if_false]
          split_ifs <;> simp_all
        · simp only [updateLayer, hterm, Bool.false_eq_true, if_false]
          split_ifs <;> rfl
      · intro hcontra
        rw [hterm] at hcontra
        exact absurd hcontra (by decide)

/-- Witness for C4 at a concrete input: a fresh layer receiving the
"Pull complete" event of the claim. -/
theorem c4_observe_updates_layer_witness :
    ("a" : String) ≠ "" ∧
    alookup (observe [] [] ⟨"a", "Pull complete", 40, 100⟩).1 "a" =
      some (updateLayer ((alookup ([] : List (String × LayerState)) "a").getD
        LayerState.zero) ⟨"a", "Pull complete", 40, 100⟩) :=
  ⟨by decide, (c4_observe_updates_layer [] [] ⟨"a", "Pull complete", 40, 100⟩ (by decide)).1⟩

/-- Counterexample to claim C7 as stated: a layer that reached
"Pull complete" (total 100, current snapped to 100, done) receives a later
"Extracting" event with current 0 and total 0; the incoming total of 0 makes
the code overwrite `current`, which drops from 100 to 0 although `total` is
known and the layer is done. `done` itself stays true. -/
theorem c7_counterexample :
    0 < (updateLayer LayerState.zero ⟨"a", "Pull complete", 40, 100⟩).total ∧
    (updateLayer LayerState.zero ⟨"a", "Pull complete", 40, 100⟩).done = true ∧
    (updateLayer (updateLayer LayerState.zero ⟨"a", "Pull complete", 40, 100⟩)
        ⟨"a", "Extracting", 0, 0⟩).done = true ∧
    (updateLayer (updateLayer LayerState.zero ⟨"a", "Pull complete", 40, 100⟩)
        ⟨"a", "Extracting", 0, 0⟩).current <
      (updateLayer LayerState.zero ⟨"a", "Pull complete", 40, 100⟩).current := by
  decide

/-- Claim C7 as amended: `done` is a terminal flag — once set, no later event
for the same id resets it, even though status text may still change — and every
terminal-status event re-establishes `current ≥ total` whenever `total` is
known; but `current` is not monotone after `done`: a later event carrying a
positive current, or a zero total, overwrites `current` and may decrease it. -/
theorem c7_done_monotone (ls : LayerState) (es : List ProgressEvent)
    (hd : ls.done = true) :
    (es.foldl updateLayer ls).done = true ∧
    (∀ e : ProgressEvent, isTerminalStatus e.status = true →
      0 < (updateLayer ls e).total →
      (updateLayer ls e).total ≤ (updateLayer ls e).current) := by
  constructor
  · have hstep : ∀ (l : LayerState) (e : ProgressEvent), l.done = true →
        (updateLayer l e).done = true := by
      intro l e hl
      by_cases hterm : isTerminalStatus e.status = true
      · simp only [updateLayer, hterm, if_true]
        split_ifs <;> rfl
      · rw [Bool.not_eq_true] at hterm
        simp only [updateLayer, hterm, Bool.false_eq_true, if_false]
        split_ifs <;> simpa using hl
    have hfold : ∀ (l : LayerState), l.done = true →
        (es.foldl updateLayer l).done = true := by
      induction es with
      | nil => intro l hl; exact hl
      | cons e es ih => intro l hl; exact ih _ (hstep l e hl)
    exact hfold ls hd
  · intro e hterm
    simp only [updateLayer, hterm, if_true]
    split_ifs <;> intro hpos <;> simp_all

/-- Witness for C7 as amended: a done layer stays done across a later
non-terminal event. -/
theorem c7_done_monotone_witness :
    (⟨100, 100, "Pull complete", true⟩ : LayerState).done = true ∧
    (([⟨"a", "Extracting", 0, 0⟩] : List ProgressEvent).foldl updateLayer
      ⟨100, 100, "Pull complete", true⟩).done = true :=
  ⟨rfl, (c7_done_monotone ⟨100, 100, "Pull complete", true⟩
    [⟨"a", "Extracting", 0, 0⟩] rfl).1⟩

/-- Claim C6: a decoded record whose `error` field is a non-empty string is
never treated as a progress event — the run aborts with the single line
`Error: <message>` and exit code 1. -/
theorem c6_error_record_fatal (rec : List (String × RawValue)) (msg : String)
    (h : alookup rec "error" = some (RawValue.str msg)) (hne : msg ≠ "") :
    recordOutcome rec = Except.error ("Error: " ++ msg, 1) ∧
    ∀ e : ProgressEvent, recordOutcome rec ≠ Except.ok e := by
  have hout : recordOutcome rec = Except.error ("Error: " ++ msg, 1) := by
    unfold recordOutcome
    rw [h]
    simp [hne]
  exact ⟨hout, fun e hcontra => by rw [hout] at hcontra; exact absurd hcontra (by simp)⟩

/-- Witness for C6: the record with error field "boom". -/
theorem c6_error_record_fatal_witness :
    alookup [("error", RawValue.str "boom")] "error" = some (RawValue.str "boom") ∧
    ("boom" : String) ≠ "" ∧
    recordOutcome [("error", RawValue.str "boom")] =
      Except.error ("Error: " ++ "boom", 1) :=
  ⟨rfl, by decide,
    (c6_error_record_fatal [("error", RawValue.str "boom")] "boom" rfl (by decide)).1⟩

/-- Claim C8: decoding a raw record is a pure, total function of the record —
decoding the same (possibly malformed) record twice yields the identical event;
missing or wrong-typed `id`/`status`/`progressDetail` fields default to the
empty string or zero instead of failing; and numeric `current`/`total` fields,
which arrive as floating-point values, are truncated to integers
(`truncToInt`). -/
theorem c8_decode_pure_defaulting (rec : List (String × RawValue)) :
    decodeEvent rec = decodeEvent rec ∧
    ((∀ s, alookup rec "id" ≠ some (RawValue.str s)) → (decodeEvent rec).id = "") ∧
    (∀ s, alookup rec "id" = some (RawValue.str s) → (decodeEvent rec).id = s) ∧
    ((∀ s, alookup rec "status" ≠ some (RawValue.str s)) →
      (decodeEvent rec).status = "") ∧
    ((∀ pd, alookup rec "progressDetail" ≠ some (RawValue.obj pd)) →
      (decodeEvent rec).current = 0 ∧ (decodeEvent rec).total = 0) ∧
    (∀ pd q, alookup rec "progressDetail" = some (RawValue.obj pd) →
      alookup pd "current" = some (RawValue.num q) →
      (decodeEvent rec).current = truncToInt q) ∧
    (∀ pd, alookup rec "progressDetail" = some (RawValue.obj pd) →
      (∀ q, alookup pd "total" ≠ some (RawValue.num q)) →
      (decodeEvent rec).total = 0) := by
  refine ⟨rfl, ?_, ?_, ?_, ?_, ?_, ?_⟩
  · intro hno
    simp [decodeEvent]
  · intro s hs
    simp [decodeEvent, hs]
  · intro hno
    simp [decodeEvent]
  · intro hno
    simp [decodeEvent]
  · intro pd q hpd hcur
    simp [decodeEvent, hpd, hcur]
  · intro pd hpd hno
    simp [decodeEvent, hpd]

/-- Witness for C8: a malformed record — numeric `id`, wrong-typed
`progressDetail` — decodes with defaulted fields. -/
theorem c8_decode_pure_defaulting_witness :
    (∀ s, alookup [("id", RawValue.num 5), ("progressDetail", RawValue.str "bad")]
      "id" ≠ some (RawValue.str s)) ∧
    (decodeEvent [("id", RawValue.num 5), ("progressDetail", RawValue.str "bad")]).id = "" :=
  ⟨fun s h => by simp [alookup] at h,
    (c8_decode_pure_defaulting
      [("id", RawValue.num 5), ("progressDetail", RawValue.str "bad")]).2.1
      (fun s h => by simp [alookup] at h)⟩

/-- Counterexample to claim C3 as stated: after the event
`{id:"a", status:"Downloading", current:50, total:100}` the state has one
unfinished layer, so `allDone` is false; the next record is the global header
`{id:"", status:"Digest: sha256:abc"}`, whose forced-complete path sets the
last rendered fraction to 1 before rendering. The render after that header
event shows exactly 1.0 although `allDone` is still false. -/
theorem c3_counterexample :
    allDoneMain (runStep ((runStep initState
        ⟨"a", "Downloading", 50, 100⟩).1) ⟨"", "Digest: sha256:abc", 0, 0⟩).1.layers
      = false ∧
    (runStep ((runStep initState
        ⟨"a", "Downloading", 50, 100⟩).1) ⟨"", "Digest: sha256:abc", 0, 0⟩).2.1 = [1] ∧
    ¬ (∀ r ∈ (runStep ((runStep initState
        ⟨"a", "Downloading", 50, 100⟩).1) ⟨"", "Digest: sha256:abc", 0, 0⟩).2.1,
        r < 1) := by
  have h1 : (runStep initState ⟨"a", "Downloading", 50, 100⟩).1.layers =
      [("a", ⟨50, 100, "Downloading", false⟩)] := by decide
  have h2 : (runStep initState ⟨"a", "Downloading", 50, 100⟩).1.order = ["a"] := by decide
  have hfilter : lowerContains "Digest: sha256:abc" "pulling from" = false := by decide
  have hhdr : isTerminalHeader "Digest: sha256:abc" = true := by decide
  have hstep2 := runStep_forced (s := (runStep initState ⟨"a", "Downloading", 50, 100⟩).1)
    (e := ⟨"", "Digest: sha256:abc", 0, 0⟩) hfilter rfl hhdr
  have hagg : renderAgg ["a"] [("a", ⟨50, 100, "Downloading", false⟩)] =
      (50, 100, false) := by decide
  have hraw : rawPct ["a"] [("a", ⟨50, 100, "Downloading", false⟩)] = 1/2 := by
    rw [rawPct]
    simp only [hagg]
    norm_num
  have hclamp : clampedPct ["a"] [("a", ⟨50, 100, "Downloading", false⟩)] = 1/2 := by
    rw [clampedPct]
    simp only [hagg, hraw, Bool.not_false, Bool.true_and]
    rw [if_neg (by norm_num)]
  have hrp : renderPct ["a"] [("a", ⟨50, 100, "Downloading", false⟩)] 1 = 1 := by
    rw [renderPct, hclamp]
    norm_num
  refine ⟨?_, ?_, ?_⟩
  · rw [hstep2]
    rw [h1]
    decide
  · rw [hstep2]
    simp only [h1, h2, hrp]
  · rw [hstep2]
    simp only [h1, h2, hrp]
    intro hall
    exact absurd (hall 1 (by simp)) (by norm_num)

/-- Claim C3 as amended: every render outside the forced-complete header path
shows strictly less than 1.0 while `allDone` is false — any computed fraction
at least 0.999 is clamped down to 0.99 before the monotonic clamp — but the
forced-complete header path (empty id, terminal global phrase) sets the last
rendered fraction to 1.0 before rendering and therefore renders exactly 1.0
even when `allDone` is false. -/
theorem c3_sub_one_clamp (s : LoopState) (e : ProgressEvent) (hinv : LoopInv s)
    (hnf : ¬(e.id = "" ∧ isTerminalHeader e.status = true))
    (had : allDoneMain (runStep s e).1.layers = false) :
    (∀ r ∈ (runStep s e).2.1, r < 1) ∧
    (∀ (order : List String) (layers : List (String × LayerState)),
      (renderAgg order layers).2.2 = false → (999 : ℚ)/1000 ≤ rawPct order layers →
      clampedPct order layers = 99/100) := by
  obtain ⟨hcons, hlay, hlt⟩ := hinv
  constructor
  · by_cases h1 : lowerContains e.status "pulling from" = true
    · rw [runStep_filter h1]
      intro r hr
      simp at hr
    · rw [Bool.not_eq_true] at h1
      by_cases h2 : e.id = ""
      · by_cases h3 : isTerminalHeader e.status = true
        · exact absurd ⟨h2, h3⟩ hnf
        · rw [Bool.not_eq_true] at h3
          rw [runStep_header h1 h2 h3]
          intro r hr
          rw [List.mem_singleton] at hr
          rw [hr]
          exact renderPct_lt_one (clampedPct_lt_one hcons hlay) hlt
      · by_cases h3 : allDoneMain (observe s.layers s.order e).1 = true
        · rw [runStep_done h1 h2 h3] at had
          rw [h3] at had
          exact absurd had (by decide)
        · rw [Bool.not_eq_true] at h3
          rw [runStep_observe h1 h2 h3]
          intro r hr
          rw [List.mem_singleton] at hr
          rw [hr]
          exact renderPct_lt_one
            (clampedPct_lt_one (observe_consistent e hcons) (Or.inr h3)) hlt
  · intro order layers hflag hle
    rw [clampedPct]
    simp only [hflag, Bool.not_false, Bool.true_and]
    simp [hle]

/-- Witness for C3 as amended: the first "Downloading" event of a run renders
one half. -/
theorem c3_sub_one_clamp_witness :
    LoopInv initState ∧
    ¬(("a" : String) = "" ∧ isTerminalHeader "Downloading" = true) ∧
    allDoneMain (runStep initState ⟨"a", "Downloading", 50, 100⟩).1.layers = false ∧
    ∀ r ∈ (runStep initState ⟨"a", "Downloading", 50, 100⟩).2.1, r < 1 :=
  ⟨⟨⟨rfl, List.nodup_nil⟩, Or.inl rfl, by norm_num [initState]⟩,
   fun h => absurd h.1 (by decide),
   by decide,
   (c3_sub_one_clamp initState ⟨"a", "Downloading", 50, 100⟩
      ⟨⟨rfl, List.nodup_nil⟩, Or.inl rfl, by norm_num [initState]⟩
      (fun h => absurd h.1 (by decide)) (by decide)).1⟩

/-- Claim C5: a record with empty id whose status contains one of the global
terminal phrases ("digest:", "downloaded newer image", "image is up to date",
case-insensitively) forces the reported fraction to exactly 1.0 — bypassing
the sub-1.0 clamp, even with zero tracked layers and zero transferred bytes —
exits the pump loop, and the run finalizes with the state word "DONE" (the
keyboard-cancel flag is not set on this path). -/
theorem c5_forced_complete (s : LoopState) (e : ProgressEvent) (hinv : LoopInv s)
    (hid : e.id = "")
    (hnp : lowerContains e.status "pulling from" = false)
    (hdr : isTerminalHeader e.status = true) :
    (runStep s e).2.1 = [1] ∧ (runStep s e).2.2 = true ∧
    (runStep s e).1.lastPct = 1 ∧
    (∀ imageRef, finalizeLine imageRef false =
      "\r\x1b[2KPulling " ++ imageRef ++ "...DONE\r\n") := by
  obtain ⟨hcons, hlay, _⟩ := hinv
  have hone : renderPct s.order s.layers 1 = 1 :=
    renderPct_forced_eq_one (le_of_lt (clampedPct_lt_one hcons hlay))
  rw [runStep_forced hnp hid hdr]
  exact ⟨by rw [hone], rfl, by simpa using hone, fun imageRef => rfl⟩

/-- Witness for C5: the header "Image is up to date" arriving in the fresh
state with zero tracked layers. -/
theorem c5_forced_complete_witness :
    LoopInv initState ∧ ("" : String) = "" ∧
    lowerContains "Image is up to date" "pulling from" = false ∧
    isTerminalHeader "Image is up to date" = true ∧
    (runStep initState ⟨"", "Image is up to date", 0, 0⟩).2.1 = [1] :=
  ⟨⟨⟨rfl, List.nodup_nil⟩, Or.inl rfl, by norm_num [initState]⟩, rfl,
   by decide, by decide,
   (c5_forced_complete initState ⟨"", "Image is up to date", 0, 0⟩
      ⟨⟨rfl, List.nodup_nil⟩, Or.inl rfl, by norm_num [initState]⟩
      rfl (by decide) (by decide)).1⟩

/-- Witness for C2: a single layer whose status is "Download complete" blocks
the aggregate flag. -/
theorem c2_allDone_characterisation_witness :
    (("a", (⟨0, 0, "Download complete", true⟩ : LayerState)) ∈
      [("a", (⟨0, 0, "Download complete", true⟩ : LayerState))]) ∧
    allDoneMain [("a", (⟨0, 0, "Download complete", true⟩ : LayerState))] = false :=
  ⟨by simp, (c2_allDone_characterisation
      [("a", (⟨0, 0, "Download complete", true⟩ : LayerState))]).2.1
      ("a", (⟨0, 0, "Download complete", true⟩ : LayerState)) (by simp) rfl⟩

/-! ## ASCII bar lemmas -/

theorem truncToInt_of_nonneg {q : ℚ} (h : 0 ≤ q) : truncToInt q = ⌊q⌋ := by
  rw [truncToInt, if_neg (not_lt.mpr h)]

theorem set_append_replicate (a : Nat) (x z : Char) (b : Nat) (y : Char) (hb : 0 < b) :
    (List.replicate a x ++ List.replicate b y).set a z =
      List.replicate a x ++ z :: List.replicate (b - 1) y := by
  induction a with
  | zero =>
      obtain ⟨b', rfl⟩ : ∃ b', b = b' + 1 := ⟨b - 1, by omega⟩
      simp [List.replicate_succ]
  | succ a ih =>
      simp only [List.replicate_succ, List.cons_append, List.set_cons_succ]
      rw [ih]

theorem range_foldl_set (k w : Nat) (hk : k ≤ w) :
    (List.range k).foldl (fun b i => b.set i '=') (List.replicate w ' ') =
      List.replicate k '=' ++ List.replicate (w - k) ' ' := by
  induction k with
  | zero => simp
  | succ k ih =>
      have hk' : k ≤ w := Nat.le_of_succ_le hk
      rw [List.range_succ, List.foldl_append, ih hk']
      simp only [List.foldl_cons, List.foldl_nil]
      rw [set_append_replicate k '=' '=' (w - k) ' ' (by omega)]
      rw [List.replicate_succ' k '=', List.append_assoc, List.cons_append,
        List.nil_append]
      have : w - k - 1 = w - (k + 1) := by omega
      rw [this]

theorem go_clamp_eq (pct : ℚ) :
    (if 1 < (if pct < 0 then 0 else pct) then 1 else if pct < 0 then 0 else pct) =
      max 0 (min 1 pct) := by
  rcases lt_or_le pct 0 with h | h
  · rw [if_pos h, if_neg (by norm_num)]
    rw [min_eq_right (by linarith), max_eq_left (by linarith)]
  · rw [if_neg (not_lt.mpr h)]
    rcases lt_or_le 1 pct with h1 | h1
    · rw [if_pos h1, min_eq_left (by linarith), max_eq_right (by norm_num)]
    · rw [if_neg (not_lt.mpr h1), min_eq_right h1, max_eq_right h]

theorem min_shape (w f1 : Nat) : (if w < f1 then w else f1) = min f1 w := by
  split_ifs with h <;> omega

theorem asciiBar_eq (pct : ℚ) (w : Nat) :
    asciiBar pct w =
      (if min (⌊max 0 (min 1 pct) * (w : ℚ)⌋.toNat) w = 0 then List.replicate w ' '
       else List.replicate (min (⌊max 0 (min 1 pct) * (w : ℚ)⌋.toNat) w - 1) '=' ++
         '>' :: List.replicate (w - min (⌊max 0 (min 1 pct) * (w : ℚ)⌋.toNat) w) ' ') := by
  have hc0 : (0 : ℚ) ≤ max 0 (min 1 pct) := le_max_left _ _
  have htr : truncToInt (max 0 (min 1 pct) * (w : ℚ)) = ⌊max 0 (min 1 pct) * (w : ℚ)⌋ :=
    truncToInt_of_nonneg (mul_nonneg hc0 (by positivity))
  simp only [asciiBar, go_clamp_eq, htr, min_shape]
  set f := min (⌊max 0 (min 1 pct) * (w : ℚ)⌋.toNat) w with hf
  have hfw : f ≤ w := min_le_right _ _
  by_cases h0 : 0 < f
  · rw [if_pos h0, if_neg (by omega)]
    rw [range_foldl_set (f - 1) w (by omega)]
    rw [set_append_replicate (f - 1) '=' '>' (w - (f - 1)) ' ' (by omega)]
    have : w - (f - 1) - 1 = w - f := by omega
    rw [this]
  · rw [if_neg h0, if_pos (by omega)]

theorem asciiBar_length (pct : ℚ) (w : Nat) : (asciiBar pct w).length = w := by
  rw [asciiBar_eq]
  have hfw : min (⌊max 0 (min 1 pct) * (w : ℚ)⌋.toNat) w ≤ w := min_le_right _ _
  split_ifs with h0
  · simp
  · simp only [List.length_append, List.length_replicate, List.length_cons]
    omega

theorem roundHalfEven_dist (q : ℚ) : |(roundHalfEven q : ℚ) - q| ≤ 1/2 := by
  have h1 : (⌊q⌋ : ℚ) ≤ q := Int.floor_le q
  have h2 : q < ⌊q⌋ + 1 := Int.lt_floor_add_one q
  simp only [roundHalfEven]
  split_ifs with ha hb hc
  · rw [abs_le]
    constructor <;> linarith
  · rw [abs_le]
    push_cast
    constructor <;> linarith
  · rw [abs_le]
    constructor <;> linarith [le_of_not_lt ha, le_of_not_lt hb]
  · rw [abs_le]
    push_cast
    constructor <;> linarith [le_of_not_lt ha, le_of_not_lt hb]

/-- Claim C9: `render` produces exactly the text
`"Pulling <image>...[<bar>] <pct>%"` where the bar is a fixed-width (40 in
`render`) character sequence with `floor(fraction*width)` filled columns after
the fraction is clamped to `[0,1]` regardless of upstream clamping, the last
filled column is the head marker `'>'` whenever any column is filled and the
rest are blank, and the percentage is the fraction times 100 rounded to the
nearest integer (`%3.0f`, distance at most one half) formatted three wide. -/
theorem c9_render_line_format (imageRef : String) (pct : ℚ) (w : Nat) :
    asciiBar pct w =
      (if min (⌊max 0 (min 1 pct) * (w : ℚ)⌋.toNat) w = 0 then List.replicate w ' '
       else List.replicate (min (⌊max 0 (min 1 pct) * (w : ℚ)⌋.toNat) w - 1) '=' ++
         '>' :: List.replicate (w - min (⌊max 0 (min 1 pct) * (w : ℚ)⌋.toNat) w) ' ') ∧
    (asciiBar pct w).length = w ∧
    |(roundHalfEven (pct * 100) : ℚ) - pct * 100| ≤ 1/2 ∧
    renderLine imageRef pct =
      "Pulling " ++ imageRef ++ "...[" ++ String.mk (asciiBar pct 40) ++ "] " ++
        fmtF3 (pct * 100) ++ "%" :=
  ⟨asciiBar_eq pct w, asciiBar_length pct w, roundHalfEven_dist _, rfl⟩

end Progress
